import Mathlib

/-!
Verification of the feature-vector construction and scaling pipeline of the
DTaaS prediction service (`src/ai/app/services/predict.py`).

The embedding below mirrors the Python module function by function:
`split_indices`, `order_hist_positions`, `compute_window_base`,
`scale_noise_abs_db` and the main entry point `predict_with_model`.
Python floats are modelled as rationals (ℚ); a caller-supplied feature value
is either a numeric value (`FVal.num`, covering numbers and numeric strings,
on which Python `float(...)` succeeds) or a non-numeric string
(`FVal.nonNum`, on which `float(...)` raises).  Every exception the module
raises is a Python `ValueError` carrying a message; the raised `KeyError`
for missing history features is caught inside the module and re-raised as a
`ValueError`, so only `ValueError` escapes.  Fallible computations return
`Except PyError`.
-/

/-- A caller-supplied feature value: a numeric value (number or numeric
string, i.e. `float(...)` succeeds and yields `q`), or a non-numeric string
on which `float(...)` raises. -/
inductive FVal where
  | num (q : ℚ)
  | nonNum (s : String)
deriving DecidableEq

/-- Python `float(v)`: `some q` when the coercion succeeds, `none` when it
raises. -/
def toFloatQ : FVal → Option ℚ
  | .num q => some q
  | .nonNum _ => none

/-- The raw text of a non-numeric value (used in the uncaught-conversion
error message). -/
def FVal.rawText : FVal → String
  | .num _ => ""
  | .nonNum s => s

/-- A Python exception escaping the pipeline: its class and its message.
The module only ever lets `ValueError` escape, but Python distinguishes
exception classes, so the embedding keeps the class explicit. -/
inductive PyError where
  | valueError (msg : String)
  | keyError (msg : String)
deriving DecidableEq

/-- The Python class name of an exception. -/
def PyError.className : PyError → String
  | .valueError _ => "ValueError"
  | .keyError _ => "KeyError"

/-- The message of an exception. -/
def PyError.message : PyError → String
  | .valueError m => m
  | .keyError m => m

/-- The caller-supplied feature map (`features : Dict[str, float]`, values
possibly numeric-as-string).  Keys of a Python dict are unique; lookups take
the first binding. -/
abbrev FMap := List (String × FVal)

/-- A feature map whose values are all numeric (the declared type
`Dict[str, float]` of the source). -/
def numMap (l : List (String × ℚ)) : FMap :=
  l.map (fun p => (p.1, FVal.num p.2))

/-- The result record returned by `predict_with_model`. -/
structure PResult where
  y_pred : ℚ
  y_pred_scaled : ℚ
  base : ℚ
  x_vector : List ℚ
  feature_names : List String
deriving DecidableEq

instance {e a : Type _} [DecidableEq e] [DecidableEq a] : DecidableEq (Except e a) := fun x y =>
  match x, y with
  | .error u, .error v =>
      if h : u = v then isTrue (by rw [h]) else isFalse (fun hc => h (Except.error.inj hc))
  | .ok u, .ok v =>
      if h : u = v then isTrue (by rw [h]) else isFalse (fun hc => h (Except.ok.inj hc))
  | .error _, .ok _ => isFalse (fun hc => Except.noConfusion hc)
  | .ok _, .error _ => isFalse (fun hc => Except.noConfusion hc)

/-! ### Python string helpers (structural, kernel-computable) -/

/-- Python `s.startswith(p)`, on the character data of the strings. -/
def pyStartswith (s p : String) : Bool :=
  p.data.isPrefixOf s.data

/-- Split a character list on a separator character, Python
`str.split(sep)` semantics: `"".split(sep) = [""]`, separators delimit
(possibly empty) segments. -/
def splitOnChar (sep : Char) : List Char → List (List Char)
  | [] => [[]]
  | c :: cs =>
    match splitOnChar sep cs with
    | [] => [[]]
    | g :: gs => if c = sep then [] :: g :: gs else (c :: g) :: gs

/-- The trailing segment of `s.split("_")` (Python `s.split("_")[-1]`). -/
def lastUnderscoreSegment (s : String) : List Char :=
  (splitOnChar '_' s.data).getLastD []

/-- Parse a non-empty all-digit character list as a natural number. -/
def digitsToNat : List Char → Option Nat
  | [] => none
  | cs =>
    if cs.all (fun c => c.isDigit) then
      some (cs.foldl (fun a c => a * 10 + (c.toNat - 48)) 0)
    else none

/-- Python `int(s)` on the trailing segment: optional sign followed by
digits; anything else raises (modelled as `none`). -/
def pyIntOfChars : List Char → Option Int
  | '-' :: rest => (digitsToNat rest).map (fun n => -(n : Int))
  | '+' :: rest => (digitsToNat rest).map (fun n => (n : Int))
  | cs => (digitsToNat cs).map (fun n => (n : Int))

/-! ### Model metadata (the JSON dictionary, fields optional as in the source) -/

/-- The `noise_scaling` sub-dictionary: optional min/max bounds with
defaults 50.0 and 150.0 applied by `.get` in the source. -/
structure NoiseCfg where
  min_abs_db : Option ℚ
  max_abs_db : Option ℚ
deriving DecidableEq

/-- The optional `scaling` sub-dictionary of the metadata. -/
structure ScalingCfg where
  window_scale_mode : Option String
  noise_scaling : Option NoiseCfg
deriving DecidableEq

/-- The metadata dictionary of a model, with exactly the keys
`predict_with_model` reads; absent keys are `none`. -/
structure Metadata where
  feature_names : Option (List String)
  feature_names_in : Option (List String)
  window_size : Option Int
  scaling : Option ScalingCfg
  window_scale_mode : Option String
  noise_scaling : Option NoiseCfg
deriving DecidableEq

/-- Python `list(metadata.get("feature_names") or metadata.get("feature_names_in") or [])`:
an absent or empty `feature_names` falls back to `feature_names_in`, then to `[]`. -/
def Metadata.effFeatureNames (m : Metadata) : List String :=
  let a := m.feature_names.getD []
  if a.isEmpty then m.feature_names_in.getD [] else a

/-- Python `int(metadata.get("window_size", 0))`. -/
def Metadata.effWindowSize (m : Metadata) : Int :=
  m.window_size.getD 0

/-- Python `metadata.get("scaling") or {}`. -/
def Metadata.effScaling (m : Metadata) : ScalingCfg :=
  m.scaling.getD ⟨none, none⟩

/-- Python `scaling.get("window_scale_mode", metadata.get("window_scale_mode", "window_mean"))`. -/
def Metadata.effMode (m : Metadata) : String :=
  m.effScaling.window_scale_mode.getD (m.window_scale_mode.getD "window_mean")

/-- Python `scaling.get("noise_scaling", metadata.get("noise_scaling", {"min_abs_db": 50.0, "max_abs_db": 150.0}))`. -/
def Metadata.effNoiseCfg (m : Metadata) : NoiseCfg :=
  m.effScaling.noise_scaling.getD (m.noise_scaling.getD ⟨some 50, some 150⟩)

/-- Python `float(noise_cfg.get("min_abs_db", 50.0))`. -/
def Metadata.effVmin (m : Metadata) : ℚ :=
  m.effNoiseCfg.min_abs_db.getD 50

/-- Python `float(noise_cfg.get("max_abs_db", 150.0))`. -/
def Metadata.effVmax (m : Metadata) : ℚ :=
  m.effNoiseCfg.max_abs_db.getD 150

/-! ### Error messages raised by the module -/

def msgNoFeatureNames : String := "metadata.feature_names is required."

def msgWindowSize : String := "metadata.window_size must be > 0."

def msgNoiseCfg : String := "noise_scaling max_abs_db must be greater than min_abs_db."

def msgNoHist : String := "Model metadata exposes no DL_hist_ features."

def msgMissingHist (ns : List String) : String :=
  "Missing history features: " ++ String.intercalate ", " ns

def msgHistNumeric : String := "DL_hist_ values must be numeric."

def msgHistPositive : String := "All DL_hist_ values must be > 0."

def msgUnknownMode (mode : String) : String :=
  "Unknown window_scale_mode: " ++ mode

def msgMissingNoise (n : String) : String :=
  "Missing noise feature " ++ n ++ "."

def msgFloatConv (s : String) : String :=
  "could not convert string to float: " ++ s

def msgOtherNumeric (n : String) : String :=
  "Feature " ++ n ++ " must be numeric."

/-! ### The module-level helpers of `predict.py` -/

/-- `split_indices(names)`: indices of history (`DL_hist_`-prefixed), noise
(`noise_`-prefixed) and other features. -/
def split_indices (names : List String) : List Nat × List Nat × List Nat :=
  let hist_idx := (List.range names.length).filter
    (fun i => pyStartswith (names.getD i "") "DL_hist_")
  let noise_idx := (List.range names.length).filter
    (fun i => pyStartswith (names.getD i "") "noise_")
  let other_idx := (List.range names.length).filter
    (fun i => !(hist_idx.contains i || noise_idx.contains i))
  (hist_idx, noise_idx, other_idx)

/-- The sort key of history index `i`: Python
`int(str(feature_names[i]).split("_")[-1])`, `none` when `int` raises. -/
def histSuffixKey (feature_names : List String) (i : Nat) : Option Int :=
  pyIntOfChars (lastUnderscoreSegment (feature_names.getD i ""))

/-- All sort keys of the history indices; `none` as soon as any single
`int(...)` raises (which aborts Python's `sorted` call). -/
def allSuffixKeys (feature_names : List String) : List Nat → Option (List Int)
  | [] => some []
  | i :: rest =>
    match histSuffixKey feature_names i with
    | none => none
    | some k => (allSuffixKeys feature_names rest).map (fun ks => k :: ks)

/-- `order_hist_positions(feature_names, hist_idx)`: stable-sort the history
indices by their trailing integer suffix; if any suffix fails to parse the
`except` clause returns the given order unchanged.  (Python `sorted` is a
stable sort; insertion sort on the keyed pairs is stable as well.) -/
def order_hist_positions (feature_names : List String) (hist_idx : List Nat) : List Nat :=
  if hist_idx.isEmpty then []
  else
    match allSuffixKeys feature_names hist_idx with
    | some keys =>
        (List.insertionSort (fun a b : Int × Nat => a.1 ≤ b.1) (keys.zip hist_idx)).map
          (fun p => p.2)
    | none => hist_idx

/-- The floor `1e-8` applied to the window base. -/
def windowBaseFloor : ℚ := 1 / 100000000

/-- `compute_window_base(hist_raw, mode)`: mean, anchor (last element) or
1.0 according to the mode, floored at `1e-8`; unknown modes raise
`ValueError`. -/
def compute_window_base (hist_raw : List ℚ) (mode : String) : Except PyError ℚ :=
  if mode = "window_mean" then
    .ok (max (hist_raw.sum / (hist_raw.length : ℚ)) windowBaseFloor)
  else if mode = "window_anchor" then
    .ok (max (hist_raw.getLastD 0) windowBaseFloor)
  else if mode = "none" then
    .ok (max 1 windowBaseFloor)
  else
    .error (.valueError (msgUnknownMode mode))

/-- `scale_noise_abs_db(val_db, vmin, vmax)`: min-max scale `|dB|` into
`[0,1]` with clamping on both ends. -/
def scale_noise_abs_db (val_db vmin vmax : ℚ) : ℚ :=
  min (max ((|val_db| - vmin) / (vmax - vmin)) 0) 1

/-! ### Derived views of the metadata (named pieces of the pipeline) -/

/-- The history index group of the metadata's feature names. -/
def histIdx (m : Metadata) : List Nat :=
  (split_indices m.effFeatureNames).1

/-- The noise index group of the metadata's feature names. -/
def noiseIdx (m : Metadata) : List Nat :=
  (split_indices m.effFeatureNames).2.1

/-- The other index group of the metadata's feature names. -/
def otherIdx (m : Metadata) : List Nat :=
  (split_indices m.effFeatureNames).2.2

/-- The ordered history positions the pipeline actually uses: on a count
mismatch with `window_size` the first `window_size` ordered positions are
kept, otherwise all of them. -/
def selectedHistPositions (m : Metadata) : List Nat :=
  if ((histIdx m).length : Int) ≠ m.effWindowSize then
    (order_hist_positions m.effFeatureNames (histIdx m)).take m.effWindowSize.toNat
  else
    order_hist_positions m.effFeatureNames (histIdx m)

/-- The names of the selected ordered history positions (the history
features the input must provide). -/
def requiredHistNames (m : Metadata) : List String :=
  (selectedHistPositions m).map (fun i => m.effFeatureNames.getD i "")

/-- The names of the noise positions (the noise features the input must
provide). -/
def requiredNoiseNames (m : Metadata) : List String :=
  (noiseIdx m).map (fun i => m.effFeatureNames.getD i "")

/-! ### The main service `predict_with_model` -/

/-- The float value of feature `n` in the map, defaulting to 0 when absent
or non-numeric (only used where presence and numericity are established). -/
def featVal (features : FMap) (n : String) : ℚ :=
  ((List.lookup n features).bind toFloatQ).getD 0

/-- The required history names missing from the input map (the list the
`KeyError`, re-raised as `ValueError`, reports). -/
def missingRequiredHist (m : Metadata) (features : FMap) : List String :=
  (requiredHistNames m).filter (fun n => (List.lookup n features).isNone)

/-- The first required noise name missing from the input map, in noise-index
order (the one the noise loop reports). -/
def firstMissingNoise (m : Metadata) (features : FMap) : Option String :=
  (requiredNoiseNames m).find? (fun n => (List.lookup n features).isNone)

/-- The comprehension `[float(features[n]) for n in hist_names_ordered]`:
`none` when any value is absent or `float` raises on it (both are mapped to
the same `ValueError` by the surrounding `try`). -/
def collectHistRaw (features : FMap) : List String → Option (List ℚ)
  | [] => some []
  | n :: rest =>
    match (List.lookup n features).bind toFloatQ with
    | none => none
    | some q => (collectHistRaw features rest).map (fun l => q :: l)

/-- The noise loop: for each noise position in order, require presence
(else `ValueError "Missing noise feature ..."`), coerce with `float`
(a non-numeric string makes `float` raise an uncaught `ValueError`), and
record the scaled value to write at that position. -/
def noisePairs (feature_names : List String) (features : FMap) (vmin vmax : ℚ) :
    List Nat → Except PyError (List (Nat × ℚ))
  | [] => .ok []
  | pos :: rest =>
    let name := feature_names.getD pos ""
    match List.lookup name features with
    | none => .error (.valueError (msgMissingNoise name))
    | some v =>
      match toFloatQ v with
      | none => .error (.valueError (msgFloatConv v.rawText))
      | some q =>
        (noisePairs feature_names features vmin vmax rest).map
          (fun ps => (pos, scale_noise_abs_db q vmin vmax) :: ps)

/-- The others loop: positions absent from the map are skipped (their slot
keeps the 0.0 fill), present values must coerce to float. -/
def otherPairs (feature_names : List String) (features : FMap) :
    List Nat → Except PyError (List (Nat × ℚ))
  | [] => .ok []
  | pos :: rest =>
    let name := feature_names.getD pos ""
    match List.lookup name features with
    | none => otherPairs feature_names features rest
    | some v =>
      match toFloatQ v with
      | none => .error (.valueError (msgOtherNumeric name))
      | some q =>
        (otherPairs feature_names features rest).map (fun ps => (pos, q) :: ps)

/-- Sequential in-place writes `x[pos] = val` over a list of position/value
pairs. -/
def fillAt (x : List ℚ) (ps : List (Nat × ℚ)) : List ℚ :=
  ps.foldl (fun a p => a.set p.1 p.2) x

/-- `predict_with_model(model, metadata, features)`: the full pipeline.
The estimator is modelled as an opaque function `model : List ℚ → ℚ`
(`model.predict([x])[0]`). -/
def predict_with_model (model : List ℚ → ℚ) (metadata : Metadata) (features : FMap) :
    Except PyError PResult :=
  let feature_names := metadata.effFeatureNames
  if feature_names = [] then .error (.valueError msgNoFeatureNames) else
  let window_size := metadata.effWindowSize
  if window_size ≤ 0 then .error (.valueError msgWindowSize) else
  let window_scale_mode := metadata.effMode
  let vmin := metadata.effVmin
  let vmax := metadata.effVmax
  if vmax ≤ vmin then .error (.valueError msgNoiseCfg) else
  let hist_idx := histIdx metadata
  let noise_idx := noiseIdx metadata
  let other_idx := otherIdx metadata
  if hist_idx = [] then .error (.valueError msgNoHist) else
  let ordered_hist_positions := selectedHistPositions metadata
  let hist_names_ordered := requiredHistNames metadata
  let missing_hist := missingRequiredHist metadata features
  if missing_hist ≠ [] then .error (.valueError (msgMissingHist missing_hist)) else
  match collectHistRaw features hist_names_ordered with
  | none => .error (.valueError msgHistNumeric)
  | some hist_raw =>
  if ∃ v ∈ hist_raw, v ≤ 0 then .error (.valueError msgHistPositive) else
  match compute_window_base hist_raw window_scale_mode with
  | .error e => .error e
  | .ok base =>
  let hist_scaled :=
    if window_scale_mode = "none" then hist_raw else hist_raw.map (fun v => v / base)
  let x0 := List.replicate feature_names.length (0 : ℚ)
  let x1 := fillAt x0 (ordered_hist_positions.zip hist_scaled)
  match noisePairs feature_names features vmin vmax noise_idx with
  | .error e => .error e
  | .ok nps =>
  let x2 := fillAt x1 nps
  match otherPairs feature_names features other_idx with
  | .error e => .error e
  | .ok ops =>
  let x3 := fillAt x2 ops
  let y_pred_scaled := model x3
  .ok { y_pred := y_pred_scaled * base
        y_pred_scaled := y_pred_scaled
        base := base
        x_vector := x3
        feature_names := feature_names }

/-! ### Closed forms of the pipeline outputs (used to state the claims) -/

/-- The unfloored window base for a recognized mode: mean, last value, or 1. -/
def rawBase (hist_raw : List ℚ) (mode : String) : ℚ :=
  if mode = "window_mean" then hist_raw.sum / (hist_raw.length : ℚ)
  else if mode = "window_anchor" then hist_raw.getLastD 0
  else 1

/-- The raw values of the selected history features (in selected order). -/
def histRawVals (m : Metadata) (features : FMap) : List ℚ :=
  (requiredHistNames m).map (featVal features)

/-- The window base the pipeline uses: the mode's raw base floored at
`1e-8`. -/
def pipeBase (m : Metadata) (features : FMap) : ℚ :=
  max (rawBase (histRawVals m features) m.effMode) windowBaseFloor

/-- Modelled from the spec (§4.3): the group-specific transform of one
feature name — history values divided by the base (unchanged when the mode
is `none`), noise values mapped by the absolute-dB min-max rule, all other
features passed through as floats with value 0 when absent. -/
def specTransform (mode : String) (vmin vmax base : ℚ) (features : FMap) (n : String) : ℚ :=
  if pyStartswith n "DL_hist_" then
    (if mode = "none" then featVal features n else featVal features n / base)
  else if pyStartswith n "noise_" then
    scale_noise_abs_db (featVal features n) vmin vmax
  else
    featVal features n

/-- The input vector in closed form: entry `i` is the group-specific
transform of `feature_names[i]`. -/
def pipeVec (m : Metadata) (features : FMap) : List ℚ :=
  (List.range m.effFeatureNames.length).map
    (fun i =>
      specTransform m.effMode m.effVmin m.effVmax (pipeBase m features) features
        (m.effFeatureNames.getD i ""))

/-- The configuration contract of §4.4/§7: non-empty feature names, a
positive window size, at least one history feature, a properly ordered
noise-scaling range, and a recognized window-scale mode. -/
def validMetadata (m : Metadata) : Prop :=
  m.effFeatureNames ≠ [] ∧ 0 < m.effWindowSize ∧ m.effVmin < m.effVmax ∧
    histIdx m ≠ [] ∧
    (m.effMode = "window_mean" ∨ m.effMode = "window_anchor" ∨ m.effMode = "none")

instance (m : Metadata) : Decidable (validMetadata m) := by
  unfold validMetadata; infer_instance

/-! ### Structural lemmas about the index groups -/

lemma mem_histIdx {m : Metadata} {i : Nat} :
    i ∈ histIdx m ↔
      i < m.effFeatureNames.length ∧
        pyStartswith (m.effFeatureNames.getD i "") "DL_hist_" = true := by
  simp [histIdx, split_indices, List.mem_filter, List.mem_range]

lemma mem_noiseIdx {m : Metadata} {i : Nat} :
    i ∈ noiseIdx m ↔
      i < m.effFeatureNames.length ∧
        pyStartswith (m.effFeatureNames.getD i "") "noise_" = true := by
  simp [noiseIdx, split_indices, List.mem_filter, List.mem_range]

lemma mem_otherIdx {m : Metadata} {i : Nat} :
    i ∈ otherIdx m ↔
      i < m.effFeatureNames.length ∧ i ∉ histIdx m ∧ i ∉ noiseIdx m := by
  simp [otherIdx, histIdx, noiseIdx, split_indices, List.mem_filter, List.mem_range, not_or]
  intro h
  have h' : ¬ m.effFeatureNames.length ≤ i := not_le.mpr h
  tauto

lemma nodup_histIdx (m : Metadata) : (histIdx m).Nodup :=
  List.Nodup.filter _ (List.nodup_range _)

lemma nodup_noiseIdx (m : Metadata) : (noiseIdx m).Nodup :=
  List.Nodup.filter _ (List.nodup_range _)

lemma nodup_otherIdx (m : Metadata) : (otherIdx m).Nodup :=
  List.Nodup.filter _ (List.nodup_range _)

lemma hist_noise_exclusive {s : String} (h1 : pyStartswith s "DL_hist_" = true)
    (h2 : pyStartswith s "noise_" = true) : False := by
  rw [pyStartswith, List.isPrefixOf_iff_prefix] at h1 h2
  obtain ⟨t1, e1⟩ := h1
  obtain ⟨t2, e2⟩ := h2
  rw [← e1] at e2
  have : ('n' : Char) = 'D' := by
    have e2' : ('n' : Char) :: ("oise_".data ++ t2) = 'D' :: ("L_hist_".data ++ t1) := e2
    injection e2'
  simp at this

/-! ### Lemmas about `fillAt` -/

lemma fillAt_length (x : List ℚ) (ps : List (Nat × ℚ)) :
    (fillAt x ps).length = x.length := by
  induction ps generalizing x with
  | nil => rfl
  | cons p ps ih =>
      show (fillAt (x.set p.1 p.2) ps).length = x.length
      rw [ih, List.length_set]

lemma getD_fillAt_not_mem {x : List ℚ} {ps : List (Nat × ℚ)} {j : Nat}
    (h : j ∉ ps.map Prod.fst) : (fillAt x ps).getD j 0 = x.getD j 0 := by
  induction ps generalizing x with
  | nil => rfl
  | cons p ps ih =>
      simp only [List.map_cons, List.mem_cons, not_or] at h
      show (fillAt (x.set p.1 p.2) ps).getD j 0 = x.getD j 0
      rw [ih h.2, List.getD_eq_getElem?_getD, List.getD_eq_getElem?_getD,
        List.getElem?_set_ne (fun e => h.1 e.symm)]

lemma getD_fillAt_mem {x : List ℚ} {ps : List (Nat × ℚ)} {j : Nat} {v : ℚ}
    (hnd : (ps.map Prod.fst).Nodup) (hmem : (j, v) ∈ ps) (hj : j < x.length) :
    (fillAt x ps).getD j 0 = v := by
  induction ps generalizing x with
  | nil => cases hmem
  | cons p ps ih =>
      simp only [List.map_cons, List.nodup_cons] at hnd
      cases hmem with
      | head =>
          show (fillAt (x.set j v) ps).getD j 0 = v
          rw [getD_fillAt_not_mem hnd.1, List.getD_eq_getElem?_getD,
            List.getElem?_set_self (by rwa [] : j < x.length)]
          rfl
      | tail _ hmem' =>
          show (fillAt (x.set p.1 p.2) ps).getD j 0 = v
          exact ih hnd.2 hmem' (by rwa [List.length_set])

/-! ### Lemmas about the history ordering -/

lemma allSuffixKeys_length {names : List String} :
    ∀ {l : List Nat} {ks : List Int}, allSuffixKeys names l = some ks →
      ks.length = l.length := by
  intro l
  induction l with
  | nil =>
      intro ks h
      simp only [allSuffixKeys, Option.some.injEq] at h
      rw [← h]
      rfl
  | cons i rest ih =>
      intro ks h
      simp only [allSuffixKeys] at h
      cases hk : histSuffixKey names i with
      | none => rw [hk] at h; cases h
      | some k =>
          rw [hk] at h
          cases hr : allSuffixKeys names rest with
          | none => rw [hr] at h; cases h
          | some ks' =>
              rw [hr] at h
              obtain ⟨rfl⟩ : k :: ks' = ks := by simpa using h
              simp [ih hr]

lemma order_hist_positions_perm (names : List String) (hist_idx : List Nat) :
    (order_hist_positions names hist_idx).Perm hist_idx := by
  by_cases he : hist_idx = []
  · subst he
    exact List.Perm.refl _
  · have he' : hist_idx.isEmpty = false := by
      cases hist_idx with
      | nil => exact absurd rfl he
      | cons a l => rfl
    cases hk : allSuffixKeys names hist_idx with
    | none =>
        simp only [order_hist_positions, he', hk, Bool.false_eq_true, if_false]
        exact List.Perm.refl _
    | some keys =>
        have hlen : keys.length = hist_idx.length := allSuffixKeys_length hk
        have h1 : List.Perm
            ((List.insertionSort (fun a b : Int × Nat => a.1 ≤ b.1)
              (keys.zip hist_idx)).map (fun p => p.2))
            ((keys.zip hist_idx).map (fun p => p.2)) :=
          (List.perm_insertionSort _ _).map _
        have h2 : (keys.zip hist_idx).map (fun p => p.2) = hist_idx := by
          simpa using List.map_snd_zip keys hist_idx (le_of_eq hlen.symm)
        rw [h2] at h1
        simp only [order_hist_positions, he', hk, Bool.false_eq_true, if_false]
        exact h1

lemma length_order_hist_positions (names : List String) (hist_idx : List Nat) :
    (order_hist_positions names hist_idx).length = hist_idx.length :=
  (order_hist_positions_perm names hist_idx).length_eq

lemma selectedHistPositions_eq_ordered {m : Metadata}
    (hcount : ((histIdx m).length : Int) ≤ m.effWindowSize) :
    selectedHistPositions m = order_hist_positions m.effFeatureNames (histIdx m) := by
  unfold selectedHistPositions
  split
  · apply List.take_of_length_le
    rw [length_order_hist_positions]
    omega
  · rfl

lemma selected_perm_histIdx {m : Metadata}
    (hcount : ((histIdx m).length : Int) ≤ m.effWindowSize) :
    (selectedHistPositions m).Perm (histIdx m) := by
  rw [selectedHistPositions_eq_ordered hcount]
  exact order_hist_positions_perm _ _

/-! ### Lemmas about the value collectors -/

lemma collectHistRaw_eq_some {features : FMap} :
    ∀ {l : List String},
      (∀ n ∈ l, ∃ q, (List.lookup n features).bind toFloatQ = some q) →
      collectHistRaw features l = some (l.map (featVal features)) := by
  intro l
  induction l with
  | nil => intro _; rfl
  | cons n rest ih =>
      intro h
      obtain ⟨q, hq⟩ := h n (List.mem_cons_self n rest)
      have hfv : featVal features n = q := by
        unfold featVal
        rw [hq]
        rfl
      simp only [collectHistRaw, hq, List.map_cons,
        ih (fun n' hn' => h n' (List.mem_cons_of_mem _ hn')), hfv]
      rfl

lemma collectHistRaw_none_of_bad {features : FMap} {l : List String} {n : String}
    (hn : n ∈ l) (hbad : (List.lookup n features).bind toFloatQ = none) :
    collectHistRaw features l = none := by
  induction l with
  | nil => cases hn
  | cons a rest ih =>
      cases hn with
      | head => simp [collectHistRaw, hbad]
      | tail _ h' =>
          simp only [collectHistRaw]
          cases hl : (List.lookup a features).bind toFloatQ with
          | none => rfl
          | some q => rw [ih h']; rfl

lemma mem_of_collectHistRaw_some {features : FMap} :
    ∀ {l : List String} {vals : List ℚ}, collectHistRaw features l = some vals →
      ∀ {n : String} {q : ℚ}, n ∈ l → (List.lookup n features).bind toFloatQ = some q →
        q ∈ vals := by
  intro l
  induction l with
  | nil => intro vals _ n q hn; cases hn
  | cons a rest ih =>
      intro vals hc n q hn hq
      simp only [collectHistRaw] at hc
      cases hl : (List.lookup a features).bind toFloatQ with
      | none => rw [hl] at hc; cases hc
      | some q0 =>
          rw [hl] at hc
          cases hr : collectHistRaw features rest with
          | none => rw [hr] at hc; cases hc
          | some vals' =>
              rw [hr] at hc
              obtain ⟨rfl⟩ : q0 :: vals' = vals := by simpa using hc
              cases hn with
              | head =>
                  rw [hq] at hl
                  cases hl
                  exact List.mem_cons_self _ _
              | tail _ h' => exact List.mem_cons_of_mem _ (ih hr h' hq)

lemma noisePairs_eq_ok {feature_names : List String} {features : FMap} {vmin vmax : ℚ} :
    ∀ {l : List Nat},
      (∀ pos ∈ l, ∃ q,
        (List.lookup (feature_names.getD pos "") features).bind toFloatQ = some q) →
      noisePairs feature_names features vmin vmax l =
        .ok (l.map (fun pos =>
          (pos, scale_noise_abs_db (featVal features (feature_names.getD pos "")) vmin vmax))) := by
  intro l
  induction l with
  | nil => intro _; rfl
  | cons pos rest ih =>
      intro h
      obtain ⟨q, hq⟩ := h pos (List.mem_cons_self pos rest)
      obtain ⟨v, hv, hvq⟩ := Option.bind_eq_some.mp hq
      have hfv : featVal features (feature_names.getD pos "") = q := by
        unfold featVal
        rw [hq]
        rfl
      simp only [noisePairs, hv, hvq,
        ih (fun p hp => h p (List.mem_cons_of_mem _ hp)), List.map_cons, hfv]
      rfl

lemma otherPairs_eq_ok {feature_names : List String} {features : FMap} :
    ∀ {l : List Nat},
      (∀ pos ∈ l, ∀ v, List.lookup (feature_names.getD pos "") features = some v →
        toFloatQ v ≠ none) →
      otherPairs feature_names features l =
        .ok ((l.filter
            (fun pos => (List.lookup (feature_names.getD pos "") features).isSome)).map
          (fun pos => (pos, featVal features (feature_names.getD pos "")))) := by
  intro l
  induction l with
  | nil => intro _; rfl
  | cons pos rest ih =>
      intro h
      have ihr := ih (fun p hp v hv => h p (List.mem_cons_of_mem _ hp) v hv)
      cases hl : List.lookup (feature_names.getD pos "") features with
      | none => simp only [otherPairs, hl, ihr, List.filter_cons, hl]; rfl
      | some v =>
          cases hv : toFloatQ v with
          | none => exact absurd hv (h pos (List.mem_cons_self pos rest) v hl)
          | some q =>
              have hfv : featVal features (feature_names.getD pos "") = q := by
                unfold featVal
                rw [hl]
                show (toFloatQ v).getD 0 = q
                rw [hv]
                rfl
              simp only [otherPairs, hl, hv, ihr]
              rw [List.filter_cons_of_pos (by rw [hl]; rfl), List.map_cons, hfv]
              rfl

/-! ### Lemmas about the window base -/

lemma compute_window_base_recognized {hist_raw : List ℚ} {mode : String}
    (h : mode = "window_mean" ∨ mode = "window_anchor" ∨ mode = "none") :
    compute_window_base hist_raw mode =
      .ok (max (rawBase hist_raw mode) windowBaseFloor) := by
  rcases h with h | h | h <;> subst h <;> simp [compute_window_base, rawBase]

lemma compute_window_base_unknown {hist_raw : List ℚ} {mode : String}
    (h1 : mode ≠ "window_mean") (h2 : mode ≠ "window_anchor") (h3 : mode ≠ "none") :
    compute_window_base hist_raw mode = .error (.valueError (msgUnknownMode mode)) := by
  simp [compute_window_base, h1, h2, h3]

/-! ### The fill chain produces exactly the spec transform at every index -/

lemma getElem_eq_getD {l : List ℚ} {i : Nat} (h : i < l.length) :
    l[i] = l.getD i 0 := by
  rw [List.getD_eq_getElem?_getD, List.getElem?_eq_getElem h]
  rfl

lemma map_fst_tag (l : List Nat) (g : Nat → ℚ) :
    (l.map (fun pos => (pos, g pos))).map Prod.fst = l := by
  induction l with
  | nil => rfl
  | cons a l ih =>
      simp only [List.map_cons]
      rw [ih]

lemma zip_self_map (l : List Nat) (g : Nat → ℚ) :
    l.zip (l.map g) = l.map (fun pos => (pos, g pos)) := by
  induction l with
  | nil => rfl
  | cons a l ih => simp only [List.map_cons, List.zip_cons_cons, ih]

lemma fill_chain_eq_pipeVec (m : Metadata) (features : FMap)
    (hcount : ((histIdx m).length : Int) ≤ m.effWindowSize) :
    fillAt
      (fillAt
        (fillAt (List.replicate m.effFeatureNames.length (0 : ℚ))
          ((selectedHistPositions m).zip
            (if m.effMode = "none" then histRawVals m features
             else (histRawVals m features).map (fun v => v / pipeBase m features))))
        ((noiseIdx m).map (fun pos =>
          (pos, scale_noise_abs_db (featVal features (m.effFeatureNames.getD pos ""))
            m.effVmin m.effVmax))))
      (((otherIdx m).filter
          (fun pos => (List.lookup (m.effFeatureNames.getD pos "") features).isSome)).map
        (fun pos => (pos, featVal features (m.effFeatureNames.getD pos "")))) =
    pipeVec m features := by
  have hperm := selected_perm_histIdx hcount
  have hselnd : (selectedHistPositions m).Nodup :=
    (hperm.nodup_iff).mpr (nodup_histIdx m)
  set names := m.effFeatureNames with hnames_def
  set g : Nat → ℚ := fun pos =>
    if m.effMode = "none" then featVal features (names.getD pos "")
    else featVal features (names.getD pos "") / pipeBase m features with hg
  have hsc : (if m.effMode = "none" then histRawVals m features
      else (histRawVals m features).map (fun v => v / pipeBase m features)) =
      (selectedHistPositions m).map g := by
    unfold histRawVals requiredHistNames
    rw [List.map_map]
    split
    · next hmo =>
        refine List.map_congr_left (fun pos _ => ?_)
        simp [hg, hmo]
    · next hmo =>
        rw [List.map_map]
        refine List.map_congr_left (fun pos _ => ?_)
        simp [hg, hmo]
  rw [hsc]
  rw [zip_self_map]
  -- abbreviations for the three pair lists
  set P1 := (selectedHistPositions m).map (fun pos => (pos, g pos)) with hP1
  set P2 := (noiseIdx m).map (fun pos =>
    (pos, scale_noise_abs_db (featVal features (names.getD pos "")) m.effVmin m.effVmax)) with hP2
  set P3 := ((otherIdx m).filter
      (fun pos => (List.lookup (names.getD pos "") features).isSome)).map
    (fun pos => (pos, featVal features (names.getD pos ""))) with hP3
  have hP1f : P1.map Prod.fst = selectedHistPositions m := map_fst_tag _ _
  have hP2f : P2.map Prod.fst = noiseIdx m := map_fst_tag _ _
  have hP3f : P3.map Prod.fst =
      (otherIdx m).filter
        (fun pos => (List.lookup (names.getD pos "") features).isSome) := map_fst_tag _ _
  have hlen : (fillAt (fillAt (fillAt (List.replicate names.length (0 : ℚ)) P1) P2) P3).length =
      names.length := by
    rw [fillAt_length, fillAt_length, fillAt_length, List.length_replicate]
  have hlen2 : (pipeVec m features).length = names.length := by
    unfold pipeVec
    rw [List.length_map, List.length_range]
  apply List.ext_getElem (by rw [hlen, hlen2])
  intro j hj1 hj2
  rw [getElem_eq_getD hj1, getElem_eq_getD hj2]
  have hjn : j < names.length := by rwa [hlen] at hj1
  have hpv : (pipeVec m features).getD j 0 =
      specTransform m.effMode m.effVmin m.effVmax (pipeBase m features) features
        (names.getD j "") := by
    unfold pipeVec
    rw [List.getD_eq_getElem?_getD,
      List.getElem?_eq_getElem (by rw [List.length_map, List.length_range]; exact hjn),
      List.getElem_map, List.getElem_range]
    rfl
  rw [hpv]
  by_cases hH : pyStartswith (names.getD j "") "DL_hist_" = true
  · -- history feature: written by the history fill, untouched afterwards
    have hjh : j ∈ histIdx m := mem_histIdx.mpr ⟨hjn, hH⟩
    have hjsel : j ∈ selectedHistPositions m := hperm.mem_iff.mpr hjh
    have hjnoise : j ∉ noiseIdx m := by
      intro hc
      exact hist_noise_exclusive hH (mem_noiseIdx.mp hc).2
    have hjother : j ∉ otherIdx m := by
      intro hc
      exact (mem_otherIdx.mp hc).2.1 hjh
    rw [getD_fillAt_not_mem (by
      rw [hP3f]
      intro hc
      exact hjother (List.mem_of_mem_filter hc))]
    rw [getD_fillAt_not_mem (by rw [hP2f]; exact hjnoise)]
    rw [getD_fillAt_mem (by rw [hP1f]; exact hselnd)
      (by rw [hP1]; exact List.mem_map_of_mem (fun pos => (pos, g pos)) hjsel)
      (by rw [List.length_replicate]; exact hjn)]
    unfold specTransform
    rw [if_pos hH]
  · by_cases hN : pyStartswith (names.getD j "") "noise_" = true
    · -- noise feature
      have hjnoise : j ∈ noiseIdx m := mem_noiseIdx.mpr ⟨hjn, hN⟩
      have hjh : j ∉ histIdx m := by
        intro hc
        exact hH (mem_histIdx.mp hc).2
      have hjother : j ∉ otherIdx m := by
        intro hc
        exact (mem_otherIdx.mp hc).2.2 hjnoise
      rw [getD_fillAt_not_mem (by
        rw [hP3f]
        intro hc
        exact hjother (List.mem_of_mem_filter hc))]
      rw [getD_fillAt_mem (by rw [hP2f]; exact nodup_noiseIdx m)
        (by rw [hP2]; exact List.mem_map_of_mem _ hjnoise)
        (by rw [fillAt_length, List.length_replicate]; exact hjn)]
      unfold specTransform
      rw [if_neg hH, if_pos hN]
    · -- other feature
      have hjh : j ∉ histIdx m := by
        intro hc
        exact hH (mem_histIdx.mp hc).2
      have hjnoise : j ∉ noiseIdx m := by
        intro hc
        exact hN (mem_noiseIdx.mp hc).2
      have hjother : j ∈ otherIdx m := mem_otherIdx.mpr ⟨hjn, hjh, hjnoise⟩
      have hjsel : j ∉ selectedHistPositions m := fun hc => hjh (hperm.mem_iff.mp hc)
      by_cases hpres : (List.lookup (names.getD j "") features).isSome = true
      · rw [getD_fillAt_mem
          (by rw [hP3f]; exact List.Nodup.filter _ (nodup_otherIdx m))
          (by rw [hP3]; exact List.mem_map_of_mem _ (List.mem_filter.mpr ⟨hjother, hpres⟩))
          (by rw [fillAt_length, fillAt_length, List.length_replicate]; exact hjn)]
        unfold specTransform
        rw [if_neg hH, if_neg hN]
      · rw [getD_fillAt_not_mem (by
          rw [hP3f]
          intro hc
          exact hpres (List.mem_filter.mp hc).2)]
        rw [getD_fillAt_not_mem (by rw [hP2f]; exact hjnoise)]
        rw [getD_fillAt_not_mem (by rw [hP1f]; exact hjsel)]
        have hlook : List.lookup (names.getD j "") features = none := by
          cases hc : List.lookup (names.getD j "") features with
          | none => rfl
          | some v => rw [hc] at hpres; exact absurd rfl hpres
        unfold specTransform featVal
        rw [if_neg hH, if_neg hN, hlook]
        simp [List.getD_eq_getElem?_getD, List.getElem?_replicate, hjn]

/-! ### Master characterization of a successful run -/

lemma featVal_eq_of_lookup {features : FMap} {n : String} {q : ℚ}
    (hq : List.lookup n features = some (FVal.num q)) : featVal features n = q := by
  unfold featVal
  rw [hq]
  rfl

theorem run_ok_spec (model : List ℚ → ℚ) (m : Metadata) (features : FMap)
    (hnames : m.effFeatureNames ≠ [])
    (hws : 0 < m.effWindowSize)
    (hvm : m.effVmin < m.effVmax)
    (hmode : m.effMode = "window_mean" ∨ m.effMode = "window_anchor" ∨ m.effMode = "none")
    (hhist : histIdx m ≠ [])
    (hcount : ((histIdx m).length : Int) ≤ m.effWindowSize)
    (hreq : ∀ n ∈ requiredHistNames m, ∃ q, List.lookup n features = some (FVal.num q) ∧ 0 < q)
    (hnoise : ∀ n ∈ requiredNoiseNames m, ∃ q, List.lookup n features = some (FVal.num q))
    (hother : ∀ i ∈ otherIdx m, ∀ v,
      List.lookup (m.effFeatureNames.getD i "") features = some v → ∃ q, v = FVal.num q) :
    predict_with_model model m features =
      .ok { y_pred := model (pipeVec m features) * pipeBase m features
            y_pred_scaled := model (pipeVec m features)
            base := pipeBase m features
            x_vector := pipeVec m features
            feature_names := m.effFeatureNames } := by
  have hmiss : missingRequiredHist m features = [] := by
    unfold missingRequiredHist
    rw [List.filter_eq_nil_iff]
    intro n hn
    obtain ⟨q, hq, _⟩ := hreq n hn
    simp [hq]
  have hcoll : collectHistRaw features (requiredHistNames m) =
      some (histRawVals m features) := by
    apply collectHistRaw_eq_some
    intro n hn
    obtain ⟨q, hq, _⟩ := hreq n hn
    exact ⟨q, by rw [hq]; rfl⟩
  have hpos : ¬ ∃ v ∈ histRawVals m features, v ≤ 0 := by
    rintro ⟨v, hv, hv0⟩
    unfold histRawVals at hv
    obtain ⟨n, hn, rfl⟩ := List.mem_map.mp hv
    obtain ⟨q, hq, hqpos⟩ := hreq n hn
    rw [featVal_eq_of_lookup hq] at hv0
    exact absurd hv0 (not_le.mpr hqpos)
  have hnp : noisePairs m.effFeatureNames features m.effVmin m.effVmax (noiseIdx m) =
      .ok ((noiseIdx m).map (fun pos =>
        (pos, scale_noise_abs_db (featVal features (m.effFeatureNames.getD pos ""))
          m.effVmin m.effVmax))) := by
    apply noisePairs_eq_ok
    intro pos hp
    obtain ⟨q, hq⟩ := hnoise _ (List.mem_map_of_mem _ hp)
    exact ⟨q, by rw [hq]; rfl⟩
  have hop : otherPairs m.effFeatureNames features (otherIdx m) =
      .ok (((otherIdx m).filter (fun pos =>
          (List.lookup (m.effFeatureNames.getD pos "") features).isSome)).map
        (fun pos => (pos, featVal features (m.effFeatureNames.getD pos "")))) := by
    apply otherPairs_eq_ok
    intro pos hp v hv
    obtain ⟨q, rfl⟩ := hother pos hp v hv
    simp [toFloatQ]
  simp only [predict_with_model]
  rw [if_neg hnames, if_neg (not_le.mpr hws), if_neg (not_le.mpr hvm), if_neg hhist,
    if_neg (fun hne => hne hmiss)]
  simp only [hcoll]
  rw [if_neg hpos]
  simp only [compute_window_base_recognized hmode]
  simp only [hnp, hop]
  rw [show max (rawBase (histRawVals m features) m.effMode) windowBaseFloor =
    pipeBase m features from rfl]
  rw [fill_chain_eq_pipeVec m features hcount]

/-! ### Numeric feature maps and pipeline accessors -/

lemma lookup_numMap (l : List (String × ℚ)) (n : String) :
    List.lookup n (numMap l) = (List.lookup n l).map FVal.num := by
  induction l with
  | nil => rfl
  | cons p rest ih =>
      unfold numMap at *
      simp only [List.map_cons, List.lookup]
      by_cases h : n == p.1
      · simp [h]
      · simp only [Bool.not_eq_true] at h
        simp [h, ih]

lemma pipeVec_length (m : Metadata) (features : FMap) :
    (pipeVec m features).length = m.effFeatureNames.length := by
  unfold pipeVec
  rw [List.length_map, List.length_range]

lemma pipeVec_getD {m : Metadata} {features : FMap} {i : Nat}
    (h : i < m.effFeatureNames.length) :
    (pipeVec m features).getD i 0 =
      specTransform m.effMode m.effVmin m.effVmax (pipeBase m features) features
        (m.effFeatureNames.getD i "") := by
  unfold pipeVec
  rw [List.getD_eq_getElem?_getD,
    List.getElem?_eq_getElem (by rw [List.length_map, List.length_range]; exact h),
    List.getElem_map, List.getElem_range]
  rfl

/-- `run_ok_spec` specialized to an all-numeric feature map (the declared
`Dict[str, float]` shape): presence hypotheses suffice. -/
theorem run_ok_numeric (model : List ℚ → ℚ) (m : Metadata) (fmap : List (String × ℚ))
    (hvalid : validMetadata m)
    (hcount : ((histIdx m).length : Int) ≤ m.effWindowSize)
    (hreq : ∀ n ∈ requiredHistNames m, ∃ q, List.lookup n fmap = some q ∧ 0 < q)
    (hnoise : ∀ n ∈ requiredNoiseNames m, (List.lookup n fmap).isSome = true) :
    predict_with_model model m (numMap fmap) =
      .ok { y_pred := model (pipeVec m (numMap fmap)) * pipeBase m (numMap fmap)
            y_pred_scaled := model (pipeVec m (numMap fmap))
            base := pipeBase m (numMap fmap)
            x_vector := pipeVec m (numMap fmap)
            feature_names := m.effFeatureNames } := by
  obtain ⟨h1, h2, h3, h4, h5⟩ := hvalid
  apply run_ok_spec model m (numMap fmap) h1 h2 h3 h5 h4 hcount
  · intro n hn
    obtain ⟨q, hq, hqpos⟩ := hreq n hn
    exact ⟨q, by rw [lookup_numMap, hq]; rfl, hqpos⟩
  · intro n hn
    have := hnoise n hn
    cases hq : List.lookup n fmap with
    | none => rw [hq] at this; cases this
    | some q => exact ⟨q, by rw [lookup_numMap, hq]; rfl⟩
  · intro i hi v hv
    rw [lookup_numMap] at hv
    cases hq : List.lookup (m.effFeatureNames.getD i "") fmap with
    | none => rw [hq] at hv; cases hv
    | some q =>
        rw [hq] at hv
        exact ⟨q, by injection hv with h; rw [← h]⟩

/-! ### Error-path helpers -/

lemma allSuffixKeys_none_of_mem {names : List String} {l : List Nat} {i : Nat}
    (hi : i ∈ l) (hk : histSuffixKey names i = none) :
    allSuffixKeys names l = none := by
  induction l with
  | nil => cases hi
  | cons a rest ih =>
      cases hi with
      | head => simp [allSuffixKeys, hk]
      | tail _ h' =>
          simp only [allSuffixKeys]
          cases ha : histSuffixKey names a with
          | none => rfl
          | some k => rw [ih h']; rfl

lemma noisePairs_error_first_missing {feature_names : List String} {features : FMap}
    {vmin vmax : ℚ} :
    ∀ {l : List Nat} {nm : String},
      (l.map (fun pos => feature_names.getD pos "")).find?
          (fun n => (List.lookup n features).isNone) = some nm →
      (∀ pos ∈ l, ∀ v, List.lookup (feature_names.getD pos "") features = some v →
        toFloatQ v ≠ none) →
      noisePairs feature_names features vmin vmax l =
        .error (.valueError (msgMissingNoise nm)) := by
  intro l
  induction l with
  | nil => intro nm h _; cases h
  | cons pos rest ih =>
      intro nm hfind hnum
      rw [List.map_cons, List.find?_cons] at hfind
      cases hl : List.lookup (feature_names.getD pos "") features with
      | none =>
          rw [hl] at hfind
          simp only [Option.isNone_none, List.find?] at hfind
          have : feature_names.getD pos "" = nm := by
            simpa using hfind
          simp only [noisePairs, hl]
          rw [this]
      | some v =>
          rw [hl] at hfind
          simp only [Option.isNone_some] at hfind
          cases hv : toFloatQ v with
          | none => exact absurd hv (hnum pos (List.mem_cons_self pos rest) v hl)
          | some q =>
              simp only [noisePairs, hl, hv,
                ih hfind (fun p hp w hw => hnum p (List.mem_cons_of_mem _ hp) w hw)]
              rfl

/-! ## Claim theorems -/

/-- C6: for every non-empty list of raw history values, `window_mean` yields
the arithmetic mean of the values (floored at 1e-8), `none` yields exactly
1.0, any unrecognized mode string is an invalid-configuration error
(`ValueError`), and every non-error base is at least the floor 1e-8. -/
theorem C6_window_base_modes (hist_raw : List ℚ) (mode : String) (hne : hist_raw ≠ []) :
    (mode = "window_mean" →
      compute_window_base hist_raw mode =
        .ok (max (hist_raw.sum / (hist_raw.length : ℚ)) windowBaseFloor)) ∧
    (mode = "none" → compute_window_base hist_raw mode = .ok 1) ∧
    ((mode ≠ "window_mean" ∧ mode ≠ "window_anchor" ∧ mode ≠ "none") →
      compute_window_base hist_raw mode = .error (.valueError (msgUnknownMode mode))) ∧
    (∀ b, compute_window_base hist_raw mode = .ok b → windowBaseFloor ≤ b) := by
  refine ⟨?_, ?_, ?_, ?_⟩
  · intro h
    subst h
    simp [compute_window_base]
  · intro h
    subst h
    unfold compute_window_base
    rw [if_neg (by decide : ¬("none" : String) = "window_mean"),
      if_neg (by decide : ¬("none" : String) = "window_anchor"), if_pos rfl]
    norm_num [windowBaseFloor]
  · rintro ⟨h1, h2, h3⟩
    exact compute_window_base_unknown h1 h2 h3
  · intro b hb
    unfold compute_window_base at hb
    split_ifs at hb
    all_goals
      first
        | (injection hb with h
           rw [← h]
           exact le_max_right _ _)
        | exact Except.noConfusion hb

/-- Witness for C6 at the concrete input `[100, 200, 300]` with mode
`window_mean`: the base is the mean 200. -/
theorem C6_window_base_modes_witness :
    ([100, 200, 300] : List ℚ) ≠ [] ∧
      compute_window_base [100, 200, 300] "window_mean" = .ok 200 := by
  refine ⟨by decide, ?_⟩
  have h := (C6_window_base_modes [100, 200, 300] "window_mean" (by decide)).1 rfl
  rw [h]
  norm_num [windowBaseFloor]

/-- C7: the noise transform equals `(|v| - vmin)/(vmax - vmin)` clamped to
`[0,1]` on both ends, its value always lies in `[0,1]`, and with bounds
`{min_abs_db: 50, max_abs_db: 150}` the inputs `-200`, `-10`, `-100` map to
`1`, `0`, `1/2` respectively. -/
theorem C7_noise_scaling (v vmin vmax : ℚ) (h : vmin < vmax) :
    scale_noise_abs_db v vmin vmax = min (max ((|v| - vmin) / (vmax - vmin)) 0) 1 ∧
    0 ≤ scale_noise_abs_db v vmin vmax ∧ scale_noise_abs_db v vmin vmax ≤ 1 ∧
    scale_noise_abs_db (-200) 50 150 = 1 ∧ scale_noise_abs_db (-10) 50 150 = 0 ∧
    scale_noise_abs_db (-100) 50 150 = 1/2 := by
  refine ⟨rfl, ?_, ?_, ?_, ?_, ?_⟩
  · exact le_min (le_max_right _ _) (by norm_num)
  · exact min_le_right _ _
  · unfold scale_noise_abs_db
    rw [show |(-200 : ℚ)| = 200 from by rw [abs_of_nonpos (by norm_num)]; norm_num]
    norm_num
  · unfold scale_noise_abs_db
    rw [show |(-10 : ℚ)| = 10 from by rw [abs_of_nonpos (by norm_num)]; norm_num]
    norm_num
  · unfold scale_noise_abs_db
    rw [show |(-100 : ℚ)| = 100 from by rw [abs_of_nonpos (by norm_num)]; norm_num]
    norm_num

/-- Witness for C7 at bounds `50 < 150` and input `-100`. -/
theorem C7_noise_scaling_witness :
    (50 : ℚ) < 150 ∧ scale_noise_abs_db (-100) 50 150 = 1/2 :=
  ⟨by norm_num, (C7_noise_scaling (-100) 50 150 (by norm_num)).2.2.2.2.2⟩

/-- C8: whenever some history name's trailing suffix fails to parse as an
integer, the ordering falls back to the given order, raising no error (the
function is total and returns the input order); in particular
`["DL_hist_foo", "DL_hist_bar"]` keeps the declared order. -/
theorem C8_suffix_fallback :
    (∀ (feature_names : List String) (hist_idx : List Nat), hist_idx ≠ [] →
      (∃ i ∈ hist_idx, histSuffixKey feature_names i = none) →
      order_hist_positions feature_names hist_idx = hist_idx) ∧
    order_hist_positions ["DL_hist_foo", "DL_hist_bar"] [0, 1] = [0, 1] := by
  constructor
  · rintro names hist_idx hne ⟨i, hi, hk⟩
    have he' : hist_idx.isEmpty = false := by
      cases hist_idx with
      | nil => exact absurd rfl hne
      | cons a l => rfl
    simp only [order_hist_positions, he', Bool.false_eq_true, if_false,
      allSuffixKeys_none_of_mem hi hk]
  · decide

/-- Witness for C8 at the unparsable names `["DL_hist_foo", "DL_hist_bar"]`. -/
theorem C8_suffix_fallback_witness :
    ([0, 1] : List Nat) ≠ [] ∧
    (∃ i ∈ ([0, 1] : List Nat),
      histSuffixKey ["DL_hist_foo", "DL_hist_bar"] i = none) ∧
    order_hist_positions ["DL_hist_foo", "DL_hist_bar"] [0, 1] = [0, 1] :=
  ⟨by decide, by decide,
    C8_suffix_fallback.1 ["DL_hist_foo", "DL_hist_bar"] [0, 1] (by decide) (by decide)⟩

lemma numMap_toFloatQ {fmap : List (String × ℚ)} {n : String} {v : FVal}
    (hv : List.lookup n (numMap fmap) = some v) : toFloatQ v ≠ none := by
  rw [lookup_numMap] at hv
  cases hq : List.lookup n fmap with
  | none => rw [hq] at hv; cases hv
  | some q =>
      rw [hq] at hv
      injection hv with h
      rw [← h]
      simp [toFloatQ]

/-- Metadata whose `feature_names` entry is an empty list (a configuration
violation). -/
def mdEmptyNames : Metadata := ⟨some [], none, none, none, none, none⟩

/-- A minimal well-configured metadata with one history feature. -/
def mdOneHist : Metadata := ⟨some ["DL_hist_0"], none, some 1, none, none, none⟩

/-- C2 counterexample: a configuration failure (empty `feature_names`) and a
client-input validation failure (missing history feature) both surface as
the same Python exception class `ValueError`; the two kinds of failure are
not distinguishable by exception class, contrary to the claim. -/
theorem C2_counterexample :
    predict_with_model (fun _ => 0) mdEmptyNames [] =
      .error (.valueError msgNoFeatureNames) ∧
    predict_with_model (fun _ => 0) mdOneHist [] =
      .error (.valueError (msgMissingHist ["DL_hist_0"])) ∧
    PyError.className (.valueError msgNoFeatureNames) =
      PyError.className (.valueError (msgMissingHist ["DL_hist_0"])) :=
  ⟨by decide, by decide, rfl⟩

/-- C2 (amended): every configuration violation — empty `feature_names`,
`window_size ≤ 0`, no history features, `max_abs_db ≤ min_abs_db`, or an
unrecognized `window_scale_mode` — makes `predict_with_model` fail for every
feature map, but always with a plain `ValueError`, the same exception class
used for client-input validation failures (the caller cannot distinguish the
two kinds by class, only by message). -/
theorem C2_config_failures (model : List ℚ → ℚ) (m : Metadata) (features : FMap)
    (hbroken : m.effFeatureNames = [] ∨ m.effWindowSize ≤ 0 ∨ histIdx m = [] ∨
      m.effVmax ≤ m.effVmin ∨
      (m.effMode ≠ "window_mean" ∧ m.effMode ≠ "window_anchor" ∧ m.effMode ≠ "none")) :
    ∃ msg, predict_with_model model m features = .error (.valueError msg) := by
  simp only [predict_with_model]
  by_cases h1 : m.effFeatureNames = []
  · rw [if_pos h1]; exact ⟨_, rfl⟩
  · rw [if_neg h1]
    by_cases h2 : m.effWindowSize ≤ 0
    · rw [if_pos h2]; exact ⟨_, rfl⟩
    · rw [if_neg h2]
      by_cases h3 : m.effVmax ≤ m.effVmin
      · rw [if_pos h3]; exact ⟨_, rfl⟩
      · rw [if_neg h3]
        by_cases h4 : histIdx m = []
        · rw [if_pos h4]; exact ⟨_, rfl⟩
        · rw [if_neg h4]
          have hmode : m.effMode ≠ "window_mean" ∧ m.effMode ≠ "window_anchor" ∧
              m.effMode ≠ "none" := by tauto
          by_cases h5 : missingRequiredHist m features ≠ []
          · rw [if_pos h5]; exact ⟨_, rfl⟩
          · rw [if_neg h5]
            cases hc : collectHistRaw features (requiredHistNames m) with
            | none => simp only [hc]; exact ⟨_, rfl⟩
            | some hist_raw =>
                simp only [hc]
                by_cases h6 : ∃ v ∈ hist_raw, v ≤ 0
                · rw [if_pos h6]; exact ⟨_, rfl⟩
                · rw [if_neg h6]
                  rw [compute_window_base_unknown hmode.1 hmode.2.1 hmode.2.2]
                  exact ⟨msgUnknownMode m.effMode, rfl⟩

/-- Witness for the amended C2 at the concrete broken metadata with empty
`feature_names`. -/
theorem C2_config_failures_witness :
    (mdEmptyNames.effFeatureNames = [] ∨ mdEmptyNames.effWindowSize ≤ 0 ∨
      histIdx mdEmptyNames = [] ∨ mdEmptyNames.effVmax ≤ mdEmptyNames.effVmin ∨
      (mdEmptyNames.effMode ≠ "window_mean" ∧ mdEmptyNames.effMode ≠ "window_anchor" ∧
        mdEmptyNames.effMode ≠ "none")) ∧
    ∃ msg, predict_with_model (fun _ => 0) mdEmptyNames [] = .error (.valueError msg) :=
  ⟨Or.inl (by decide),
    C2_config_failures (fun _ => 0) mdEmptyNames [] (Or.inl (by decide))⟩

/-- The metadata of the missing-feature scenario:
`feature_names = ["noise_target", "DL_hist_t_minus_0", "DL_hist_t_minus_1"]`,
`window_size = 2`. -/
def mdScenario4 : Metadata :=
  ⟨some ["noise_target", "DL_hist_t_minus_0", "DL_hist_t_minus_1"], none, some 2,
    none, none, none⟩

/-- The input of the missing-feature scenario: omits only
`DL_hist_t_minus_1`. -/
def fmScenario4 : FMap := numMap [("noise_target", -100), ("DL_hist_t_minus_0", 5)]

/-- C4: under valid metadata, an input missing required history features
fails with a `ValueError` naming exactly the missing history names; an input
with all history features present and positive but missing a required noise
feature fails with a `ValueError` naming the first missing noise feature;
and in the concrete scenario (`window_size = 2`, input omitting only
`DL_hist_t_minus_1`) the error names exactly `["DL_hist_t_minus_1"]`. -/
theorem C4_missing_features :
    (∀ (model : List ℚ → ℚ) (m : Metadata) (features : FMap), validMetadata m →
      missingRequiredHist m features ≠ [] →
      predict_with_model model m features =
        .error (.valueError (msgMissingHist (missingRequiredHist m features)))) ∧
    (∀ (model : List ℚ → ℚ) (m : Metadata) (fmap : List (String × ℚ)), validMetadata m →
      (∀ n ∈ requiredHistNames m, ∃ q, List.lookup n fmap = some q ∧ 0 < q) →
      ∀ nm, firstMissingNoise m (numMap fmap) = some nm →
      predict_with_model model m (numMap fmap) =
        .error (.valueError (msgMissingNoise nm))) ∧
    predict_with_model (fun _ => 0) mdScenario4 fmScenario4 =
      .error (.valueError (msgMissingHist ["DL_hist_t_minus_1"])) := by
  refine ⟨?_, ?_, by decide⟩
  · rintro model m features ⟨h1, h2, h3, h4, h5⟩ hmiss
    simp only [predict_with_model]
    rw [if_neg h1, if_neg (not_le.mpr h2), if_neg (not_le.mpr h3), if_neg h4,
      if_pos hmiss]
  · rintro model m fmap ⟨h1, h2, h3, h4, h5⟩ hreq nm hfind
    have hmiss : missingRequiredHist m (numMap fmap) = [] := by
      unfold missingRequiredHist
      rw [List.filter_eq_nil_iff]
      intro n hn
      obtain ⟨q, hq, _⟩ := hreq n hn
      simp [lookup_numMap, hq]
    have hcoll : collectHistRaw (numMap fmap) (requiredHistNames m) =
        some (histRawVals m (numMap fmap)) := by
      apply collectHistRaw_eq_some
      intro n hn
      obtain ⟨q, hq, _⟩ := hreq n hn
      exact ⟨q, by rw [lookup_numMap, hq]; rfl⟩
    have hpos : ¬ ∃ v ∈ histRawVals m (numMap fmap), v ≤ 0 := by
      rintro ⟨v, hv, hv0⟩
      unfold histRawVals at hv
      obtain ⟨n, hn, rfl⟩ := List.mem_map.mp hv
      obtain ⟨q, hq, hqpos⟩ := hreq n hn
      rw [featVal_eq_of_lookup (by rw [lookup_numMap, hq]; rfl)] at hv0
      exact absurd hv0 (not_le.mpr hqpos)
    simp only [predict_with_model]
    rw [if_neg h1, if_neg (not_le.mpr h2), if_neg (not_le.mpr h3), if_neg h4,
      if_neg (fun hne => hne hmiss)]
    simp only [hcoll]
    rw [if_neg hpos]
    simp only [compute_window_base_recognized h5]
    rw [noisePairs_error_first_missing hfind
      (fun pos _ v hv => numMap_toFloatQ hv)]

/-- Witness for the universally quantified parts of C4 at the concrete
scenario metadata. -/
theorem C4_missing_features_witness :
    validMetadata mdScenario4 ∧ missingRequiredHist mdScenario4 fmScenario4 ≠ [] ∧
    predict_with_model (fun _ => 0) mdScenario4 fmScenario4 =
      .error (.valueError (msgMissingHist (missingRequiredHist mdScenario4 fmScenario4))) :=
  ⟨by decide, by decide,
    C4_missing_features.1 (fun _ => 0) mdScenario4 fmScenario4 (by decide) (by decide)⟩

/-- C5: under valid metadata, a feature map in which some required history
feature is present but non-numeric or ≤ 0 makes `predict_with_model` fail
with a `ValueError` (never a computed prediction result). -/
theorem C5_bad_history_value (model : List ℚ → ℚ) (m : Metadata) (features : FMap)
    (hvalid : validMetadata m)
    (hbad : ∃ n ∈ requiredHistNames m, ∃ v, List.lookup n features = some v ∧
      (toFloatQ v = none ∨ (toFloatQ v).getD 1 ≤ 0)) :
    ∃ msg, predict_with_model model m features = .error (.valueError msg) := by
  obtain ⟨h1, h2, h3, h4, h5⟩ := hvalid
  obtain ⟨n, hn, v, hv, hbadv⟩ := hbad
  simp only [predict_with_model]
  rw [if_neg h1, if_neg (not_le.mpr h2), if_neg (not_le.mpr h3), if_neg h4]
  by_cases hm : missingRequiredHist m features ≠ []
  · rw [if_pos hm]
    exact ⟨_, rfl⟩
  · rw [if_neg hm]
    cases hq : toFloatQ v with
    | none =>
        have hc : collectHistRaw features (requiredHistNames m) = none :=
          collectHistRaw_none_of_bad hn (by rw [hv]; exact hq)
        simp only [hc]
        exact ⟨_, rfl⟩
    | some q =>
        have hq0 : q ≤ 0 := by
          cases hbadv with
          | inl h => rw [hq] at h; cases h
          | inr h => rw [hq] at h; exact h
        cases hc : collectHistRaw features (requiredHistNames m) with
        | none =>
            simp only [hc]
            exact ⟨_, rfl⟩
        | some vals =>
            simp only [hc]
            have hqmem : q ∈ vals :=
              mem_of_collectHistRaw_some hc hn (by rw [hv]; exact hq)
            rw [if_pos ⟨q, hqmem, hq0⟩]
            exact ⟨_, rfl⟩

/-- The non-positive-history scenario input: `DL_hist_t_minus_0 = -5.0`. -/
def fmScenario5 : FMap :=
  numMap [("noise_target", -100), ("DL_hist_t_minus_0", -5), ("DL_hist_t_minus_1", 7)]

/-- Witness for C5 at the concrete scenario `DL_hist_t_minus_0 = -5.0`. -/
theorem C5_bad_history_value_witness :
    validMetadata mdScenario4 ∧
    (∃ n ∈ requiredHistNames mdScenario4, ∃ v, List.lookup n fmScenario5 = some v ∧
      (toFloatQ v = none ∨ (toFloatQ v).getD 1 ≤ 0)) ∧
    ∃ msg, predict_with_model (fun _ => 0) mdScenario4 fmScenario5 =
      .error (.valueError msg) := by
  have hb : ∃ n ∈ requiredHistNames mdScenario4, ∃ v, List.lookup n fmScenario5 = some v ∧
      (toFloatQ v = none ∨ (toFloatQ v).getD 1 ≤ 0) :=
    ⟨"DL_hist_t_minus_0", by decide, FVal.num (-5), by decide, Or.inr (by decide)⟩
  exact ⟨by decide, hb,
    C5_bad_history_value (fun _ => 0) mdScenario4 fmScenario5 (by decide) hb⟩

/-- C9: when the metadata carries no scaling configuration (no
`window_scale_mode` and no `noise_scaling`, neither nested under `scaling`
nor top-level), the pipeline silently defaults to mode `window_mean` and
bounds 50/150: the noise-range check passes, `compute_window_base` succeeds
on the defaulted mode, and the run behaves exactly as if the defaults had
been written explicitly. -/
theorem C9_scaling_defaults (m : Metadata)
    (hs1 : m.effScaling.window_scale_mode = none)
    (hs2 : m.window_scale_mode = none)
    (hs3 : m.effScaling.noise_scaling = none)
    (hs4 : m.noise_scaling = none) :
    m.effMode = "window_mean" ∧ m.effVmin = 50 ∧ m.effVmax = 150 ∧
    ¬(m.effVmax ≤ m.effVmin) ∧
    (∀ hist_raw : List ℚ, ∃ b, compute_window_base hist_raw m.effMode = .ok b) ∧
    (∀ (model : List ℚ → ℚ) (features : FMap),
      predict_with_model model m features =
        predict_with_model model
          { m with scaling := some ⟨some "window_mean", some ⟨some 50, some 150⟩⟩ }
          features) := by
  have hM : m.effMode = "window_mean" := by
    unfold Metadata.effMode
    rw [hs1, hs2]
    rfl
  have hmin : m.effVmin = 50 := by
    unfold Metadata.effVmin Metadata.effNoiseCfg
    rw [hs3, hs4]
    rfl
  have hmax : m.effVmax = 150 := by
    unfold Metadata.effVmax Metadata.effNoiseCfg
    rw [hs3, hs4]
    rfl
  refine ⟨hM, hmin, hmax, ?_, ?_, ?_⟩
  · rw [hmin, hmax]
    norm_num
  · intro hist_raw
    rw [hM]
    exact ⟨_, compute_window_base_recognized (Or.inl rfl)⟩
  · intro model features
    have e1 : ({ m with scaling := some ⟨some "window_mean", some ⟨some 50, some 150⟩⟩ }
        : Metadata).effFeatureNames = m.effFeatureNames := rfl
    have e2 : ({ m with scaling := some ⟨some "window_mean", some ⟨some 50, some 150⟩⟩ }
        : Metadata).effWindowSize = m.effWindowSize := rfl
    have e3 : ({ m with scaling := some ⟨some "window_mean", some ⟨some 50, some 150⟩⟩ }
        : Metadata).effMode = "window_mean" := rfl
    have e4 : ({ m with scaling := some ⟨some "window_mean", some ⟨some 50, some 150⟩⟩ }
        : Metadata).effVmin = 50 := rfl
    have e5 : ({ m with scaling := some ⟨some "window_mean", some ⟨some 50, some 150⟩⟩ }
        : Metadata).effVmax = 150 := rfl
    have e6 : histIdx { m with scaling := some ⟨some "window_mean", some ⟨some 50, some 150⟩⟩ } =
        histIdx m := rfl
    have e7 : noiseIdx { m with scaling := some ⟨some "window_mean", some ⟨some 50, some 150⟩⟩ } =
        noiseIdx m := rfl
    have e8 : otherIdx { m with scaling := some ⟨some "window_mean", some ⟨some 50, some 150⟩⟩ } =
        otherIdx m := rfl
    have e9 : selectedHistPositions
        { m with scaling := some ⟨some "window_mean", some ⟨some 50, some 150⟩⟩ } =
        selectedHistPositions m := rfl
    have e10 : requiredHistNames
        { m with scaling := some ⟨some "window_mean", some ⟨some 50, some 150⟩⟩ } =
        requiredHistNames m := rfl
    have e11 : missingRequiredHist
        { m with scaling := some ⟨some "window_mean", some ⟨some 50, some 150⟩⟩ } features =
        missingRequiredHist m features := rfl
    simp only [predict_with_model, e1, e2, e3, e4, e5, e6, e7, e8, e9, e10, e11,
      hM, hmin, hmax]

/-- Witness for C9 at the concrete metadata of the missing-feature scenario
(whose scaling configuration is entirely absent). -/
theorem C9_scaling_defaults_witness :
    mdScenario4.effScaling.window_scale_mode = none ∧
    mdScenario4.window_scale_mode = none ∧
    mdScenario4.effScaling.noise_scaling = none ∧
    mdScenario4.noise_scaling = none ∧
    mdScenario4.effMode = "window_mean" ∧ mdScenario4.effVmin = 50 ∧
    mdScenario4.effVmax = 150 := by
  have h := C9_scaling_defaults mdScenario4 rfl rfl rfl rfl
  exact ⟨rfl, rfl, rfl, rfl, h.1, h.2.1, h.2.2.1⟩

/-- C3: for valid metadata whose history count matches `window_size` and a
numeric feature map providing every required history name (with positive
value) and every required noise name, the run succeeds and returns an
`x_vector` of length `len(feature_names)` whose entry `i` is exactly the
group-specific transform of `feature_names[i]`: history divided by the base
(unchanged under mode `none`), noise by the absolute-dB min-max rule, other
features passed through with default 0 when absent. -/
theorem C3_spec_vector (model : List ℚ → ℚ) (m : Metadata) (fmap : List (String × ℚ))
    (hvalid : validMetadata m)
    (hcount : ((histIdx m).length : Int) = m.effWindowSize)
    (hreq : ∀ n ∈ requiredHistNames m, ∃ q, List.lookup n fmap = some q ∧ 0 < q)
    (hnoise : ∀ n ∈ requiredNoiseNames m, (List.lookup n fmap).isSome = true) :
    ∃ r, predict_with_model model m (numMap fmap) = .ok r ∧
      r.x_vector.length = m.effFeatureNames.length ∧
      (∀ i, i < m.effFeatureNames.length →
        r.x_vector.getD i 0 =
          specTransform m.effMode m.effVmin m.effVmax r.base (numMap fmap)
            (m.effFeatureNames.getD i "")) := by
  refine ⟨_, run_ok_numeric model m fmap hvalid (le_of_eq hcount) hreq hnoise, ?_, ?_⟩
  · exact pipeVec_length m (numMap fmap)
  · intro i hi
    exact pipeVec_getD hi

/-- The metadata of the C3 witness: one noise, two history (count matching
`window_size = 2`) and one passthrough feature. -/
def mdFull : Metadata :=
  ⟨some ["noise_target", "DL_hist_t_minus_0", "DL_hist_t_minus_1", "cell_load"], none,
    some 2, none, none, none⟩

/-- The numeric input of the C3 witness (omits the passthrough feature). -/
def fmFull : List (String × ℚ) :=
  [("noise_target", -100), ("DL_hist_t_minus_0", 5), ("DL_hist_t_minus_1", 7)]

/-- Witness for C3 at a concrete valid metadata and numeric input. -/
theorem C3_spec_vector_witness :
    validMetadata mdFull ∧ ((histIdx mdFull).length : Int) = mdFull.effWindowSize ∧
    (∀ n ∈ requiredNoiseNames mdFull, (List.lookup n fmFull).isSome = true) ∧
    ∃ r, predict_with_model (fun _ => 0) mdFull (numMap fmFull) = .ok r ∧
      r.x_vector.length = mdFull.effFeatureNames.length ∧
      (∀ i, i < mdFull.effFeatureNames.length →
        r.x_vector.getD i 0 =
          specTransform mdFull.effMode mdFull.effVmin mdFull.effVmax r.base (numMap fmFull)
            (mdFull.effFeatureNames.getD i "")) := by
  have hreq : ∀ n ∈ requiredHistNames mdFull, ∃ q, List.lookup n fmFull = some q ∧ 0 < q := by
    intro n hn
    rw [show requiredHistNames mdFull = ["DL_hist_t_minus_0", "DL_hist_t_minus_1"]
      from by decide] at hn
    rcases List.mem_cons.mp hn with rfl | hn'
    · exact ⟨5, by decide, by norm_num⟩
    · rcases List.mem_cons.mp hn' with rfl | hn''
      · exact ⟨7, by decide, by norm_num⟩
      · cases hn''
  exact ⟨by decide, by decide, by decide,
    C3_spec_vector (fun _ => 0) mdFull fmFull (by decide) (by decide) hreq (by decide)⟩

/-- C10: when the metadata exposes fewer history features than
`window_size` (but at least one), the run raises no error for the mismatch:
the selection keeps all detected ordered history positions, the base is
computed over those fewer-than-`window_size` values, and the result's
`x_vector` still has length `len(feature_names)`. -/
theorem C10_tolerates_fewer_hist (model : List ℚ → ℚ) (m : Metadata)
    (fmap : List (String × ℚ))
    (hvalid : validMetadata m)
    (hlt : ((histIdx m).length : Int) < m.effWindowSize)
    (hreq : ∀ n ∈ requiredHistNames m, ∃ q, List.lookup n fmap = some q ∧ 0 < q)
    (hnoise : ∀ n ∈ requiredNoiseNames m, (List.lookup n fmap).isSome = true) :
    selectedHistPositions m = order_hist_positions m.effFeatureNames (histIdx m) ∧
    (histRawVals m (numMap fmap)).length = (histIdx m).length ∧
    ∃ r, predict_with_model model m (numMap fmap) = .ok r ∧
      r.x_vector.length = m.effFeatureNames.length ∧
      r.base = max (rawBase (histRawVals m (numMap fmap)) m.effMode) windowBaseFloor := by
  have hsel := selectedHistPositions_eq_ordered (le_of_lt hlt)
  refine ⟨hsel, ?_,
    ⟨_, run_ok_numeric model m fmap hvalid (le_of_lt hlt) hreq hnoise,
      pipeVec_length m _, rfl⟩⟩
  unfold histRawVals requiredHistNames
  rw [List.length_map, List.length_map, hsel, length_order_hist_positions]

/-- The metadata of the C10 witness: two history features but
`window_size = 7`. -/
def mdFewHist : Metadata :=
  ⟨some ["DL_hist_t_minus_0", "DL_hist_t_minus_1"], none, some 7, none, none, none⟩

/-- Witness for C10 at a concrete metadata with 2 history features and
`window_size = 7`. -/
theorem C10_tolerates_fewer_hist_witness :
    validMetadata mdFewHist ∧ ((histIdx mdFewHist).length : Int) < mdFewHist.effWindowSize ∧
    selectedHistPositions mdFewHist =
      order_hist_positions mdFewHist.effFeatureNames (histIdx mdFewHist) ∧
    (histRawVals mdFewHist (numMap [("DL_hist_t_minus_0", 5), ("DL_hist_t_minus_1", 7)])).length =
      (histIdx mdFewHist).length ∧
    ∃ r, predict_with_model (fun _ => 0) mdFewHist
        (numMap [("DL_hist_t_minus_0", 5), ("DL_hist_t_minus_1", 7)]) = .ok r ∧
      r.x_vector.length = mdFewHist.effFeatureNames.length ∧
      r.base = max (rawBase (histRawVals mdFewHist
        (numMap [("DL_hist_t_minus_0", 5), ("DL_hist_t_minus_1", 7)])) mdFewHist.effMode)
        windowBaseFloor := by
  have hreq : ∀ n ∈ requiredHistNames mdFewHist,
      ∃ q, List.lookup n [("DL_hist_t_minus_0", (5 : ℚ)), ("DL_hist_t_minus_1", 7)] = some q ∧
        0 < q := by
    intro n hn
    rw [show requiredHistNames mdFewHist = ["DL_hist_t_minus_0", "DL_hist_t_minus_1"]
      from by decide] at hn
    rcases List.mem_cons.mp hn with rfl | hn'
    · exact ⟨5, by decide, by norm_num⟩
    · rcases List.mem_cons.mp hn' with rfl | hn''
      · exact ⟨7, by decide, by norm_num⟩
      · cases hn''
  have h := C10_tolerates_fewer_hist (fun _ => 0) mdFewHist
    [("DL_hist_t_minus_0", 5), ("DL_hist_t_minus_1", 7)] (by decide) (by decide) hreq
    (by decide)
  exact ⟨by decide, by decide, h.1, h.2.1, h.2.2⟩

/-- Metadata of the window-anchor scenario: three history features with
suffixes 0, 1, 2 and `window_scale_mode = "window_anchor"`. -/
def mdAnchor : Metadata :=
  ⟨some ["DL_hist_0", "DL_hist_1", "DL_hist_2"], none, some 3, none,
    some "window_anchor", none⟩

/-- Input assigning the raw values `[100, 200, 300]` oldest-to-newest under
the claim's convention that suffix 0 denotes the most recent value: the
suffix-2 (oldest) feature gets 100 and the suffix-0 (most recent) feature
gets 300. -/
def fmAnchorClaim : FMap :=
  numMap [("DL_hist_0", 300), ("DL_hist_1", 200), ("DL_hist_2", 100)]

/-- Input assigning the raw values `[100, 200, 300]` by ascending suffix
(the code docstring's convention, suffix 0 = oldest). -/
def fmAnchorCode : FMap :=
  numMap [("DL_hist_0", 100), ("DL_hist_1", 200), ("DL_hist_2", 300)]

lemma rawBase_anchor (vals : List ℚ) :
    rawBase vals "window_anchor" = vals.getLastD 0 := by
  unfold rawBase
  rw [if_neg (by decide : ¬("window_anchor" : String) = "window_mean"), if_pos rfl]

/-- C1 counterexample: under the claim's own convention (recency suffix 0 =
most recent), supplying `[100, 200, 300]` oldest-to-newest means the
suffix-0 feature holds 300 — yet the code returns base = 100 (the value of
the LARGEST suffix, the last ascending-suffix-ordered value), not the
suffix-0 value 300.  The claim's identification of the base with the
suffix-0 feature is therefore false. -/
theorem C1_counterexample :
    predict_with_model (fun _ => 0) mdAnchor fmAnchorClaim =
      .ok ⟨0, 0, 100, [3, 2, 1], ["DL_hist_0", "DL_hist_1", "DL_hist_2"]⟩ ∧
    List.lookup "DL_hist_0" fmAnchorClaim = some (FVal.num 300) ∧
    (100 : ℚ) ≠ 300 := by
  refine ⟨?_, by decide, by norm_num⟩
  have e1 : mdAnchor.effFeatureNames = ["DL_hist_0", "DL_hist_1", "DL_hist_2"] := by decide
  have e2 : mdAnchor.effWindowSize = 3 := by decide
  have e3 : mdAnchor.effMode = "window_anchor" := by decide
  have e4 : mdAnchor.effVmin = 50 := by decide
  have e5 : mdAnchor.effVmax = 150 := by decide
  have e6 : histIdx mdAnchor = [0, 1, 2] := by decide
  have e7 : noiseIdx mdAnchor = [] := by decide
  have e8 : otherIdx mdAnchor = [] := by decide
  have e9 : selectedHistPositions mdAnchor = [0, 1, 2] := by decide
  have e10 : requiredHistNames mdAnchor = ["DL_hist_0", "DL_hist_1", "DL_hist_2"] := by
    decide
  have e11 : missingRequiredHist mdAnchor fmAnchorClaim = [] := by decide
  have e12 : collectHistRaw fmAnchorClaim ["DL_hist_0", "DL_hist_1", "DL_hist_2"] =
      some [300, 200, 100] := by decide
  simp only [predict_with_model, e1, e2, e3, e4, e5, e6, e7, e8, e9, e10, e11, e12]
  norm_num [compute_window_base, windowBaseFloor, fillAt, noisePairs, otherPairs,
    show (["DL_hist_0", "DL_hist_1", "DL_hist_2"] : List String) ≠ [] from by decide,
    show ([0, 1, 2] : List ℕ) ≠ [] from by decide,
    show ("window_anchor" : String) ≠ "window_mean" from by decide,
    show ("window_anchor" : String) ≠ "none" from by decide]
  rfl

/-- C1 (amended): under `window_anchor`, the window base is the LAST value
in ascending-suffix order — the history feature with the largest recency
suffix — floored at 1e-8 (not the suffix-0 feature's value); in particular,
assigning `[100, 200, 300]` by ascending suffix (`DL_hist_0 = 100`,
`DL_hist_1 = 200`, `DL_hist_2 = 300`) yields base = 300 and scaled history
entries `[1/3, 2/3, 1]`. -/
theorem C1_window_anchor_base :
    (∀ (model : List ℚ → ℚ) (m : Metadata) (fmap : List (String × ℚ)),
      validMetadata m → m.effMode = "window_anchor" →
      ((histIdx m).length : Int) ≤ m.effWindowSize →
      (∀ n ∈ requiredHistNames m, ∃ q, List.lookup n fmap = some q ∧ 0 < q) →
      (∀ n ∈ requiredNoiseNames m, (List.lookup n fmap).isSome = true) →
      ∃ r, predict_with_model model m (numMap fmap) = .ok r ∧
        r.base = max ((histRawVals m (numMap fmap)).getLastD 0) windowBaseFloor) ∧
    predict_with_model (fun _ => 0) mdAnchor fmAnchorCode =
      .ok ⟨0, 0, 300, [1/3, 2/3, 1], ["DL_hist_0", "DL_hist_1", "DL_hist_2"]⟩ := by
  constructor
  · intro model m fmap hvalid hanchor hcount hreq hnoise
    refine ⟨_, run_ok_numeric model m fmap hvalid hcount hreq hnoise, ?_⟩
    show pipeBase m (numMap fmap) = _
    unfold pipeBase
    rw [hanchor, rawBase_anchor]
  · have e1 : mdAnchor.effFeatureNames = ["DL_hist_0", "DL_hist_1", "DL_hist_2"] := by
      decide
    have e2 : mdAnchor.effWindowSize = 3 := by decide
    have e3 : mdAnchor.effMode = "window_anchor" := by decide
    have e4 : mdAnchor.effVmin = 50 := by decide
    have e5 : mdAnchor.effVmax = 150 := by decide
    have e6 : histIdx mdAnchor = [0, 1, 2] := by decide
    have e7 : noiseIdx mdAnchor = [] := by decide
    have e8 : otherIdx mdAnchor = [] := by decide
    have e9 : selectedHistPositions mdAnchor = [0, 1, 2] := by decide
    have e10 : requiredHistNames mdAnchor = ["DL_hist_0", "DL_hist_1", "DL_hist_2"] := by
      decide
    have e11 : missingRequiredHist mdAnchor fmAnchorCode = [] := by decide
    have e12 : collectHistRaw fmAnchorCode ["DL_hist_0", "DL_hist_1", "DL_hist_2"] =
        some [100, 200, 300] := by decide
    simp only [predict_with_model, e1, e2, e3, e4, e5, e6, e7, e8, e9, e10, e11, e12]
    norm_num [compute_window_base, windowBaseFloor, fillAt, noisePairs, otherPairs,
      show (["DL_hist_0", "DL_hist_1", "DL_hist_2"] : List String) ≠ [] from by decide,
      show ([0, 1, 2] : List ℕ) ≠ [] from by decide,
      show ("window_anchor" : String) ≠ "window_mean" from by decide,
      show ("window_anchor" : String) ≠ "none" from by decide]
    rfl

/-- Witness for the universally quantified part of the amended C1 at the
ascending-suffix scenario input. -/
theorem C1_window_anchor_base_witness :
    validMetadata mdAnchor ∧ mdAnchor.effMode = "window_anchor" ∧
    ∃ r, predict_with_model (fun _ => 0) mdAnchor
        (numMap [("DL_hist_0", 100), ("DL_hist_1", 200), ("DL_hist_2", 300)]) = .ok r ∧
      r.base = max ((histRawVals mdAnchor
        (numMap [("DL_hist_0", 100), ("DL_hist_1", 200), ("DL_hist_2", 300)])).getLastD 0)
        windowBaseFloor := by
  have hreq : ∀ n ∈ requiredHistNames mdAnchor,
      ∃ q, List.lookup n [("DL_hist_0", (100 : ℚ)), ("DL_hist_1", 200), ("DL_hist_2", 300)] =
        some q ∧ 0 < q := by
    intro n hn
    rw [show requiredHistNames mdAnchor = ["DL_hist_0", "DL_hist_1", "DL_hist_2"]
      from by decide] at hn
    rcases List.mem_cons.mp hn with rfl | hn'
    · exact ⟨100, by decide, by norm_num⟩
    · rcases List.mem_cons.mp hn' with rfl | hn''
      · exact ⟨200, by decide, by norm_num⟩
      · rcases List.mem_cons.mp hn'' with rfl | hn3
        · exact ⟨300, by decide, by norm_num⟩
        · cases hn3
  exact ⟨by decide, by decide,
    C1_window_anchor_base.1 (fun _ => 0) mdAnchor
      [("DL_hist_0", 100), ("DL_hist_1", 200), ("DL_hist_2", 300)] (by decide) (by decide)
      (by decide) hreq (by decide)⟩
